import Mathlib

/-!
# Server bootstrap: `internal/server/server.go`

A shallow embedding of the `server` package.  The Go code is a straight line of
calls on collaborators (the fiber engine, the zap logger, the feature modules),
so the embedding records every such call, in program order, in a trace
(`World`).  Values the code only reads from its surroundings (the process
environment, `fiber.IsChild()`, what the blocking listen call returns) are
fields of `Env`.
-/

set_option autoImplicit false

namespace TwitterClone

/-! ## Go `time` durations -/

namespace time

/-- Go `time.Duration`: a count of nanoseconds. -/
abbrev Duration := Nat

def Nanosecond : Duration := 1
def Microsecond : Duration := 1000 * Nanosecond
def Millisecond : Duration := 1000 * Microsecond
def Second : Duration := 1000 * Millisecond
def Minute : Duration := 60 * Second
def Hour : Duration := 60 * Minute

end time

/-! ## Opaque collaborator handles -/

namespace database
/-- Storage handle (`database.Database`); only its identity is visible here. -/
structure Database where
  id : Nat
  deriving DecidableEq, Repr
end database

namespace cache
/-- Cache handle (`cache.Cache`). -/
structure Cache where
  id : Nat
  deriving DecidableEq, Repr
end cache

namespace zap
/-- Logger handle (`*zap.SugaredLogger`). -/
structure SugaredLogger where
  id : Nat
  deriving DecidableEq, Repr
end zap

namespace webserver
/-- Web server handle (`webserver.WebServer`), owner of the fiber engine. -/
structure WebServer where
  id : Nat
  deriving DecidableEq, Repr
end webserver

/-- A Go `error` value. -/
structure GoError where
  msg : String
  deriving DecidableEq, Repr

/-! ## Middleware configurations, as written in `server.go` -/

namespace cors
structure Config where
  AllowOrigins : String
  AllowCredentials : Bool
  AllowHeaders : String
  deriving DecidableEq, Repr
end cors

namespace limiter
structure Config where
  Max : Nat
  Expiration : time.Duration
  deriving DecidableEq, Repr
end limiter

namespace logger
structure Config where
  Format : String
  deriving DecidableEq, Repr
end logger

namespace csrf
/-- The `KeyGenerator` closures of `csrf.Config`; `server.go` has one,
`func() string { return gonanoid.Must() }`. -/
inductive KeyGenerator where
  | gonanoidMust
  deriving DecidableEq, Repr

structure Config where
  CookieSecure : Bool
  Expiration : time.Duration
  KeyGenerator : KeyGenerator
  deriving DecidableEq, Repr
end csrf

namespace fiber

/-- The `fiber.Handler` values `server.go` builds: one per middleware
constructor, carrying the configuration it was built from. -/
inductive Handler where
  | cors (c : cors.Config)
  | limiter (c : limiter.Config)
  | logger (c : logger.Config)
  | csrf (c : csrf.Config)
  deriving DecidableEq, Repr

/-- The value returned by `Engine().Group(path, handlers...)`: the group's
path prefix and the group-level handlers it was created with. -/
structure Router where
  path : String
  handlers : List Handler
  deriving DecidableEq, Repr

end fiber

def cors.New (c : cors.Config) : fiber.Handler := fiber.Handler.cors c
def limiter.New (c : limiter.Config) : fiber.Handler := fiber.Handler.limiter c
def logger.New (c : logger.Config) : fiber.Handler := fiber.Handler.logger c
def csrf.New (c : csrf.Config) : fiber.Handler := fiber.Handler.csrf c

/-- The four feature modules whose `Routes` function `initRoutes` calls. -/
inductive FeatureModule where
  | auth
  | tweet
  | user
  | relationship
  deriving DecidableEq, Repr

/-! ## The trace of collaborator calls -/

/-- One call made by the server on a collaborator. -/
inductive Event where
  /-- The call `ws.Engine().Use(h)`. -/
  | use (ws : webserver.WebServer) (h : fiber.Handler)
  /-- The call `ws.Engine().Group(g.path, g.handlers...)`. -/
  | group (ws : webserver.WebServer) (g : fiber.Router)
  /-- The call `m.Routes(g, db, cache)` of a feature module. -/
  | routes (m : FeatureModule) (g : fiber.Router) (db : database.Database) (c : cache.Cache)
  /-- The call `log.Infof(...)`, with the formatted message. -/
  | infof (log : zap.SugaredLogger) (msg : String)
  /-- The call `log.Error(err)`. -/
  | error (log : zap.SugaredLogger) (err : GoError)
  /-- The call `ws.Listen(addr)`. -/
  | listen (ws : webserver.WebServer) (addr : String)
  /-- The call `ws.ListenTLS(addr, certFile, keyFile)`. -/
  | listenTLS (ws : webserver.WebServer) (addr certFile keyFile : String)
  deriving DecidableEq, Repr

/-- The calls made so far, oldest first. -/
abbrev World := List Event

/-- What the code reads from its surroundings. -/
structure Env where
  /-- the process environment -/
  getenv : String → Option String
  /-- the result of `fiber.IsChild()` -/
  isChild : Bool
  /-- what `webserver.Listen(addr)` returns once it returns (`none` is `nil`) -/
  listen : String → Option GoError
  /-- what `webserver.ListenTLS(addr, certFile, keyFile)` returns -/
  listenTLS : String → String → String → Option GoError

namespace config

/-- Modelled from the spec: `config.GetString` (package `pkg/config`, not part
of the sources at hand).  The spec lists `APP_ENV` as an environment-sourced
input with a default: the value of the variable, or the default when it is
unset. -/
def GetString (env : Env) (key : String) (defaultValue : String) : String :=
  match env.getenv key with
  | some v => v
  | none => defaultValue

end config

/-! ## `server.go` -/

namespace server

/-- The `Config` fields `server.go` reads. -/
structure Config where
  AppName : String
  Version : String
  BuildID : String
  Host : String
  Port : String
  deriving DecidableEq, Repr

structure Server where
  config : Config
  db : database.Database
  cache : cache.Cache
  log : zap.SugaredLogger
  webserver : webserver.WebServer
  deriving DecidableEq, Repr

/-- Constructor `New`.  The method `config.init()` is declared elsewhere in
the package; it is the parameter `init`. -/
def New (init : Config → Config) (webserver : webserver.WebServer)
    (db : database.Database) (cache : cache.Cache) (log : zap.SugaredLogger)
    (config : Config) : Server :=
  let config := init config
  { config := config
    db := db
    cache := cache
    log := log
    webserver := webserver }

def Server.initMiddlewares (s : Server) (w : World) : World :=
  let w := w ++ [Event.use s.webserver (cors.New
    { AllowOrigins := "*"
      AllowCredentials := true
      AllowHeaders := "Content-Type, X-CSRF-Token" })]
  let w := w ++ [Event.use s.webserver (limiter.New
    { Max := 60
      Expiration := 1 * time.Minute })]
  let w := w ++ [Event.use s.webserver (logger.New
    { Format := "$\x7bgreen\x7d$\x7btime\x7d$\x7breset\x7d | $\x7bstatus\x7d | $\x7bcyan\x7d$\x7blatency\x7d$\x7breset\x7d\t-\t$\x7bhost\x7d | $\x7byellow\x7d$\x7bmethod\x7d$\x7breset\x7d | $\x7bpath\x7d $\x7bqueryParams\x7d\n" })]
  w

def Server.initRoutes (s : Server) (env : Env) (w : World) : World :=
  let csrfMiddleware := csrf.New
    { CookieSecure := config.GetString env "APP_ENV" "development" == "production"
      Expiration := 24 * time.Hour
      KeyGenerator := csrf.KeyGenerator.gonanoidMust }
  let authGroup : fiber.Router := { path := "/auth", handlers := [] }
  let w := w ++ [Event.group s.webserver authGroup]
  let tweetsGroup : fiber.Router := { path := "/tweets", handlers := [csrfMiddleware] }
  let w := w ++ [Event.group s.webserver tweetsGroup]
  let usersGroup : fiber.Router := { path := "/users", handlers := [csrfMiddleware] }
  let w := w ++ [Event.group s.webserver usersGroup]
  let relationshipGroup : fiber.Router :=
    { path := "/relationships", handlers := [csrfMiddleware] }
  let w := w ++ [Event.group s.webserver relationshipGroup]
  let w := w ++ [Event.routes FeatureModule.auth authGroup s.db s.cache]
  let w := w ++ [Event.routes FeatureModule.tweet tweetsGroup s.db s.cache]
  let w := w ++ [Event.routes FeatureModule.user usersGroup s.db s.cache]
  let w := w ++ [Event.routes FeatureModule.relationship relationshipGroup s.db s.cache]
  w

/-- The message of `Infof("Starting up %s %s:%s", AppName, Version, BuildID)`. -/
def startupMessage (c : Config) : String :=
  "Starting up " ++ c.AppName ++ " " ++ c.Version ++ ":" ++ c.BuildID

/-- The address of `fmt.Sprintf("%s:%s", Host, Port)`. -/
def listenAddr (c : Config) : String :=
  c.Host ++ ":" ++ c.Port

def Server.Listen (s : Server) (env : Env) (w : World) : World :=
  let w := s.initMiddlewares w
  let w := s.initRoutes env w
  let w := if !env.isChild then w ++ [Event.infof s.log (startupMessage s.config)] else w
  let w := w ++ [Event.listen s.webserver (listenAddr s.config)]
  match env.listen (listenAddr s.config) with
  | some err => w ++ [Event.error s.log err]
  | none => w

def Server.ListenTLS (s : Server) (env : Env) (certFile : String) (keyFile : String)
    (w : World) : World :=
  let w := s.initMiddlewares w
  let w := s.initRoutes env w
  let w := if !env.isChild then w ++ [Event.infof s.log (startupMessage s.config)] else w
  let w := w ++ [Event.listenTLS s.webserver (listenAddr s.config) certFile keyFile]
  match env.listenTLS (listenAddr s.config) certFile keyFile with
  | some err => w ++ [Event.error s.log err]
  | none => w

end server

/-! ## Reading a trace -/

/-- The handlers registered engine-wide with `Use`, in registration order. -/
def usedHandlers (w : World) : List fiber.Handler :=
  w.filterMap fun e => match e with
    | Event.use _ h => some h
    | _ => none

/-- The route groups created with `Group`, in creation order. -/
def groups (w : World) : List fiber.Router :=
  w.filterMap fun e => match e with
    | Event.group _ g => some g
    | _ => none

/-- The calls of feature-module `Routes` functions, in call order. -/
def routesCalls (w : World) :
    List (FeatureModule × fiber.Router × database.Database × cache.Cache) :=
  w.filterMap fun e => match e with
    | Event.routes m g db c => some (m, g, db, c)
    | _ => none

/-- The messages logged at info level. -/
def infoLines (w : World) : List String :=
  w.filterMap fun e => match e with
    | Event.infof _ msg => some msg
    | _ => none

/-- The errors logged at error level. -/
def errorRecords (w : World) : List GoError :=
  w.filterMap fun e => match e with
    | Event.error _ err => some err
    | _ => none

/-- The four kinds of middleware `server.go` builds. -/
inductive Stage where
  | cors
  | limiter
  | logger
  | csrf
  deriving DecidableEq, Repr

def fiber.Handler.stage : fiber.Handler → Stage
  | fiber.Handler.cors _ => Stage.cors
  | fiber.Handler.limiter _ => Stage.limiter
  | fiber.Handler.logger _ => Stage.logger
  | fiber.Handler.csrf _ => Stage.csrf

def fiber.Handler.isCsrf : fiber.Handler → Bool
  | fiber.Handler.csrf _ => true
  | _ => false

/-- Whether the event is a call on the fiber engine or on a feature module
(`Use`, `Group`, `Routes`): the calls `initMiddlewares` and `initRoutes` make. -/
def Event.isSetup : Event → Bool
  | Event.use _ _ => true
  | Event.group _ _ => true
  | Event.routes _ _ _ _ => true
  | _ => false

/-- Whether the event is the call of the web server's `Listen` or `ListenTLS`. -/
def Event.isListenCall : Event → Bool
  | Event.listen _ _ => true
  | Event.listenTLS _ _ _ _ => true
  | _ => false

/-- Go `strings.HasPrefix(s, pre)`. -/
def hasPrefix (s pre : String) : Bool :=
  pre.toList.isPrefixOf s.toList

/-- Modelled from the spec: the router (fiber, not part of the sources at hand)
"dispatches by path prefix": a request passes through the group-level handlers
of a group only if the group's path is a prefix of the request path. -/
def passesThrough (reqPath : String) (g : fiber.Router) : Bool :=
  hasPrefix reqPath g.path

/-! ## The rate limiter's admission policy

`limiter.New` is fiber's; `server.go` only configures it.  The policy below is
the one the specification gives for the Rate Admission Guard, with the
maximum and the window length taken from the configuration. -/

namespace limiter

/-- Modelled from the spec: the `RateWindowEntry` of a client key, "(count,
window-start timestamp)".  Times are wall-clock nanoseconds, the unit of
`time.Duration`. -/
structure RateWindowEntry where
  count : Nat
  windowStart : Nat
  deriving DecidableEq, Repr

/-- Modelled from the spec: the counter table, "client key → (count,
window-start timestamp)", one entry per distinct client key. -/
abbrev RateTable := String → Option RateWindowEntry

/-- The table at startup: "counts reset to empty on startup". -/
def RateTable.empty : RateTable := fun _ => none

def RateTable.set (t : RateTable) (key : String) (e : RateWindowEntry) : RateTable :=
  fun k => if k = key then some e else t k

/-- Modelled from the spec: the fixed-window policy of the Rate Admission
Guard, for one key's entry.  "On the first request for a key, open a new window
starting now with count 1 and admit.  On subsequent requests within the same
window, increment and admit while count ≤ 60; once count exceeds 60, reject
[...] until the window expires, at which point the counter resets to a fresh
window", "starting from a fresh count of 1".  The maximum is `cfg.Max`, the
window length `cfg.Expiration`. -/
def nextEntry (cfg : Config) (entry : Option RateWindowEntry) (now : Nat) :
    Bool × RateWindowEntry :=
  match entry with
  | none => (true, { count := 1, windowStart := now })
  | some e =>
    if now < e.windowStart + cfg.Expiration then
      (decide (e.count + 1 ≤ cfg.Max), { count := e.count + 1, windowStart := e.windowStart })
    else
      (true, { count := 1, windowStart := now })

/-- Modelled from the spec: `admit(key) -> allow | reject` at wall time `now`;
only the entry of `key` is read and written. -/
def admission (cfg : Config) (t : RateTable) (key : String) (now : Nat) : Bool × RateTable :=
  ((nextEntry cfg (t key) now).1, t.set key (nextEntry cfg (t key) now).2)

/-- A request as the limiter sees it: the client key and the arrival time. -/
structure Request where
  key : String
  time : Nat
  deriving DecidableEq, Repr

/-- The requests of a sequence, served in order, each with its decision. -/
def serve (cfg : Config) : RateTable → List Request → List (Request × Bool)
  | _, [] => []
  | t, r :: rs =>
    (r, (admission cfg t r.key r.time).1) :: serve cfg (admission cfg t r.key r.time).2 rs

/-- The table after a sequence of requests was served. -/
def tableAfter (cfg : Config) : RateTable → List Request → RateTable
  | t, [] => t
  | t, r :: rs => tableAfter cfg (admission cfg t r.key r.time).2 rs

/-- Whether a served request is an admitted request of `key` with arrival time
in the half-open interval `[a, b)`. -/
def counted (key : String) (a b : Nat) (p : Request × Bool) : Bool :=
  p.2 && decide (p.1.key = key) && decide (a ≤ p.1.time) && decide (p.1.time < b)

/-- The number of admitted requests of `key` with arrival time in `[a, b)`. -/
def admittedIn (key : String) (a b : Nat) (out : List (Request × Bool)) : Nat :=
  out.countP (counted key a b)

/-- The requests arrive in order of time. -/
def inTimeOrder (reqs : List Request) : Prop :=
  reqs.Pairwise fun r1 r2 => r1.time ≤ r2.time

instance (reqs : List Request) : Decidable (inTimeOrder reqs) := by
  unfold inTimeOrder
  infer_instance

/-- A bound on how many requests of one key can still be admitted with arrival
time in `[a, a + cfg.Expiration)`, given the key's entry: nothing once the
entry's window starts at or after the end of the interval; what is left of the
window's quota when the window starts inside the interval; that and one more
window's quota when the window starts before the interval and overlaps it; two
windows' quota otherwise. -/
def potential (cfg : Config) (a : Nat) (entry : Option RateWindowEntry) : Nat :=
  match entry with
  | none => 2 * cfg.Max
  | some e =>
    if a + cfg.Expiration ≤ e.windowStart then 0
    else if a ≤ e.windowStart then cfg.Max - e.count
    else if a < e.windowStart + cfg.Expiration then cfg.Max + (cfg.Max - e.count)
    else 2 * cfg.Max

/-- What the served requests `hist` and a key's current entry have to do with
each other: without an entry the key has made no request; with one, every
request of the key arrived before the entry's window ends, one of them arrived
at the window's start, and the admitted ones inside the window plus what is
left of the quota do not exceed the maximum. -/
def histOk (cfg : Config) (key : String) (hist : List (Request × Bool)) :
    Option RateWindowEntry → Prop
  | none => ∀ p ∈ hist, p.1.key ≠ key
  | some e =>
    (∀ p ∈ hist, p.1.key = key → p.1.time < e.windowStart + cfg.Expiration) ∧
    (∃ p ∈ hist, p.1.time = e.windowStart) ∧
    admittedIn key e.windowStart (e.windowStart + cfg.Expiration) hist +
      (cfg.Max - e.count) ≤ cfg.Max

end limiter

/-- The configurations of the rate limiters registered engine-wide. -/
def limiterConfigs (w : World) : List limiter.Config :=
  w.filterMap fun e => match e with
    | Event.use _ (fiber.Handler.limiter c) => some c
    | _ => none

/-- A server to evaluate the definitions on. -/
def exampleServer : server.Server :=
  { config := { AppName := "twitter-clone", Version := "1.0.0", BuildID := "abc123",
                Host := "127.0.0.1", Port := "5000" }
    db := { id := 1 }
    cache := { id := 2 }
    log := { id := 3 }
    webserver := { id := 4 } }

/-- One request of key `K` at time 0, 59 more at second 59, and two at second
60: a burst on either side of the boundary of the window opened at time 0. -/
def burstAcrossBoundary : List limiter.Request :=
  { key := "K", time := 0 } ::
    (List.replicate 59 { key := "K", time := 59 * time.Second } ++
      List.replicate 2 { key := "K", time := 60 * time.Second })

/-- Sixty-one requests of key `K` inside one minute, the first at time 0, with
a request of another key in between. -/
def sixtyOneRequests : List limiter.Request :=
  { key := "K", time := 0 } :: { key := "L", time := 1 * time.Second } ::
    List.replicate 60 { key := "K", time := 30 * time.Second }

/-! ## Theorems -/

open server

/-- What `initMiddlewares` appends does not depend on the calls made before. -/
theorem initMiddlewares_append (s : Server) (w : World) :
    s.initMiddlewares w = w ++ s.initMiddlewares [] := by
  simp [Server.initMiddlewares]

/-- What `initRoutes` appends does not depend on the calls made before. -/
theorem initRoutes_append (s : Server) (env : Env) (w : World) :
    s.initRoutes env w = w ++ s.initRoutes env [] := by
  simp [Server.initRoutes]

theorem groups_append (w v : World) : groups (w ++ v) = groups w ++ groups v := by
  simp [groups, List.filterMap_append]

theorem usedHandlers_append (w v : World) :
    usedHandlers (w ++ v) = usedHandlers w ++ usedHandlers v := by
  simp [usedHandlers, List.filterMap_append]

/-- A request path under `/auth` is under none of the three other prefixes. -/
theorem auth_prefix_disjoint (reqPath : String) (h : hasPrefix reqPath "/auth" = true) :
    hasPrefix reqPath "/tweets" = false ∧ hasPrefix reqPath "/users" = false ∧
      hasPrefix reqPath "/relationships" = false := by
  unfold hasPrefix at *
  generalize reqPath.toList = l at *
  have e1 : "/auth".toList = ['/', 'a', 'u', 't', 'h'] := by decide
  have e2 : "/tweets".toList = ['/', 't', 'w', 'e', 'e', 't', 's'] := by decide
  have e3 : "/users".toList = ['/', 'u', 's', 'e', 'r', 's'] := by decide
  have e4 : "/relationships".toList =
      ['/', 'r', 'e', 'l', 'a', 't', 'i', 'o', 'n', 's', 'h', 'i', 'p', 's'] := by decide
  rw [e1] at h
  rw [e2, e3, e4]
  match l, h with
  | [], h => simp [List.isPrefixOf] at h
  | [_], h => simp [List.isPrefixOf] at h
  | a :: b :: l, h =>
    simp only [List.isPrefixOf, Bool.and_eq_true, beq_iff_eq] at h
    obtain ⟨-, hb, -⟩ := h
    subst hb
    simp [List.isPrefixOf]

/-- C1: `initRoutes` creates exactly four route groups, with the pairwise
distinct prefixes `/auth`, `/tweets`, `/users`, `/relationships` (in that
order of creation); a group carries a CSRF handler if and only if its prefix is
`/tweets`, `/users` or `/relationships`; the `/auth` group has an empty
group-level handler list; with dispatch by path prefix, a request whose path
is under `/auth` passes through no group that carries a CSRF handler; and
`initRoutes` registers no engine-wide handler. -/
theorem C1_route_groups (s : Server) (env : Env) (w : World) :
    ∃ gs : List fiber.Router,
      groups (s.initRoutes env w) = groups w ++ gs ∧
      gs.length = 4 ∧
      gs.map (fun g => g.path) = ["/auth", "/tweets", "/users", "/relationships"] ∧
      (gs.map (fun g => g.path)).Nodup ∧
      (∀ g ∈ gs, (∃ h ∈ g.handlers, h.isCsrf = true) ↔
        g.path ∈ ["/tweets", "/users", "/relationships"]) ∧
      (∀ g ∈ gs, g.path = "/auth" → g.handlers = []) ∧
      (∀ reqPath : String, hasPrefix reqPath "/auth" = true →
        ∀ g ∈ gs, passesThrough reqPath g = true → ∀ h ∈ g.handlers, h.isCsrf = false) ∧
      usedHandlers (s.initRoutes env w) = usedHandlers w := by
  refine ⟨groups (s.initRoutes env []), ?_, ?_, ?_, ?_, ?_, ?_, ?_, ?_⟩
  · rw [initRoutes_append, groups_append]
  · simp [Server.initRoutes, groups]
  · simp [Server.initRoutes, groups]
  · simp [Server.initRoutes, groups]
  · intro g hg
    simp only [Server.initRoutes, groups, List.nil_append, List.cons_append,
      List.filterMap_cons, List.filterMap_nil, List.mem_cons, List.mem_singleton,
      List.not_mem_nil, or_false] at hg
    rcases hg with rfl | rfl | rfl | rfl <;>
      simp [csrf.New, fiber.Handler.isCsrf]
  · intro g hg hp
    simp only [Server.initRoutes, groups, List.nil_append, List.cons_append,
      List.filterMap_cons, List.filterMap_nil, List.mem_cons, List.mem_singleton,
      List.not_mem_nil, or_false] at hg
    rcases hg with rfl | rfl | rfl | rfl <;> simp_all
  · intro reqPath hauth g hg hpass
    obtain ⟨h1, h2, h3⟩ := auth_prefix_disjoint reqPath hauth
    simp only [Server.initRoutes, groups, List.nil_append, List.cons_append,
      List.filterMap_cons, List.filterMap_nil, List.mem_cons, List.mem_singleton,
      List.not_mem_nil, or_false] at hg
    rcases hg with rfl | rfl | rfl | rfl <;> simp_all [passesThrough]
  · rw [initRoutes_append, usedHandlers_append]
    simp [Server.initRoutes, usedHandlers]

/-- C2: `initMiddlewares` registers exactly three engine-wide middlewares, on
the server's own engine and after whatever was registered before, in the order
CORS, rate limiter, access logger; on a fresh engine these three are all the
registered handlers, so in registration order (the order in which the engine
runs them for a request) CORS precedes the limiter and the limiter precedes
the logger. -/
theorem C2_global_middleware_order (s : Server) (w : World) :
    ∃ hs : List fiber.Handler,
      s.initMiddlewares w = w ++ hs.map (Event.use s.webserver) ∧
      usedHandlers (s.initMiddlewares w) = usedHandlers w ++ hs ∧
      usedHandlers (s.initMiddlewares []) = hs ∧
      hs.map fiber.Handler.stage = [Stage.cors, Stage.limiter, Stage.logger] := by
  refine ⟨usedHandlers (s.initMiddlewares []), ?_, ?_, rfl, ?_⟩
  · simp [Server.initMiddlewares, usedHandlers]
  · rw [initMiddlewares_append, usedHandlers_append]
  · simp [Server.initMiddlewares, usedHandlers, fiber.Handler.stage, cors.New, limiter.New,
      logger.New]

theorem routesCalls_append (w v : World) :
    routesCalls (w ++ v) = routesCalls w ++ routesCalls v := by
  simp [routesCalls, List.filterMap_append]

theorem infoLines_append (w v : World) : infoLines (w ++ v) = infoLines w ++ infoLines v := by
  simp [infoLines, List.filterMap_append]

theorem errorRecords_append (w v : World) :
    errorRecords (w ++ v) = errorRecords w ++ errorRecords v := by
  simp [errorRecords, List.filterMap_append]

/-- What `Listen` appends to any earlier calls: the middleware registrations, the
route registrations, the startup line unless the process is a child, the listen
call, and the error record if the listen call returned an error. -/
theorem Listen_trace (s : Server) (env : Env) (w : World) :
    s.Listen env w = w ++ s.initMiddlewares [] ++ s.initRoutes env [] ++
      ((if env.isChild then [] else [Event.infof s.log (startupMessage s.config)]) ++
        Event.listen s.webserver (listenAddr s.config) ::
          (env.listen (listenAddr s.config)).toList.map (Event.error s.log)) := by
  simp only [Server.Listen]
  rw [initRoutes_append s env (s.initMiddlewares w), initMiddlewares_append s w]
  cases env.isChild <;> cases env.listen (listenAddr s.config) <;> simp

/-- What `ListenTLS` appends: the same calls as `Listen`, with the TLS listen call. -/
theorem ListenTLS_trace (s : Server) (env : Env) (certFile keyFile : String) (w : World) :
    s.ListenTLS env certFile keyFile w = w ++ s.initMiddlewares [] ++ s.initRoutes env [] ++
      ((if env.isChild then [] else [Event.infof s.log (startupMessage s.config)]) ++
        Event.listenTLS s.webserver (listenAddr s.config) certFile keyFile ::
          (env.listenTLS (listenAddr s.config) certFile keyFile).toList.map
            (Event.error s.log)) := by
  simp only [Server.ListenTLS]
  rw [initRoutes_append s env (s.initMiddlewares w), initMiddlewares_append s w]
  cases env.isChild <;> cases env.listenTLS (listenAddr s.config) certFile keyFile <;> simp

/-- C3: one call of `Listen` (and likewise of `ListenTLS`) appends to the
earlier calls exactly one copy of what `initMiddlewares` does, then exactly one
copy of what `initRoutes` does, then a rest that holds no registration at all
and exactly one listen call: both initialisations run once, middlewares first,
and are complete before the web server is asked to listen.  What they append
is: engine-wide `Use` calls only (the rate limiter and the access logger among
them), then `Group` calls only, then `Routes` calls only; so on a fresh engine
every CSRF-carrying group is created after the limiter and the logger were
registered and before any feature module, its own included, registers
handlers. -/
theorem C3_setup_once_before_listen (s : Server) (env : Env) (certFile keyFile : String)
    (w : World) :
    (∃ rest, s.Listen env w = w ++ s.initMiddlewares [] ++ s.initRoutes env [] ++ rest ∧
        (∀ e ∈ rest, e.isSetup = false) ∧
        rest.filter Event.isListenCall = [Event.listen s.webserver (listenAddr s.config)]) ∧
    (∃ rest, s.ListenTLS env certFile keyFile w =
          w ++ s.initMiddlewares [] ++ s.initRoutes env [] ++ rest ∧
        (∀ e ∈ rest, e.isSetup = false) ∧
        rest.filter Event.isListenCall =
          [Event.listenTLS s.webserver (listenAddr s.config) certFile keyFile]) ∧
    (∃ (hs : List fiber.Handler) (gs : List fiber.Router)
        (rs : List (FeatureModule × fiber.Router)),
        s.initMiddlewares [] = hs.map (Event.use s.webserver) ∧
        s.initRoutes env [] = gs.map (Event.group s.webserver) ++
          rs.map (fun r => Event.routes r.1 r.2 s.db s.cache) ∧
        (∃ h ∈ hs, h.stage = Stage.limiter) ∧ (∃ h ∈ hs, h.stage = Stage.logger) ∧
        (∃ g ∈ gs, ∃ h ∈ g.handlers, h.isCsrf = true) ∧
        (∀ g ∈ gs, (∃ h ∈ g.handlers, h.isCsrf = true) → ∃ m, (m, g) ∈ rs)) := by
  refine ⟨⟨_, Listen_trace s env w, ?_, ?_⟩, ⟨_, ListenTLS_trace s env certFile keyFile w, ?_, ?_⟩,
    ?_⟩
  · cases env.isChild <;> cases env.listen (listenAddr s.config) <;> simp [Event.isSetup]
  · cases env.isChild <;> cases env.listen (listenAddr s.config) <;>
      simp [Event.isListenCall, List.filter]
  · cases env.isChild <;> cases env.listenTLS (listenAddr s.config) certFile keyFile <;>
      simp [Event.isSetup]
  · cases env.isChild <;> cases env.listenTLS (listenAddr s.config) certFile keyFile <;>
      simp [Event.isListenCall, List.filter]
  · refine ⟨usedHandlers (s.initMiddlewares []), groups (s.initRoutes env []),
      (routesCalls (s.initRoutes env [])).map (fun r => (r.1, r.2.1)), ?_, ?_, ?_, ?_, ?_, ?_⟩
    · simp [Server.initMiddlewares, usedHandlers]
    · simp [Server.initRoutes, groups, routesCalls]
    · simp [Server.initMiddlewares, usedHandlers, fiber.Handler.stage, cors.New, limiter.New,
        logger.New]
    · simp [Server.initMiddlewares, usedHandlers, fiber.Handler.stage, cors.New, limiter.New,
        logger.New]
    · simp [Server.initRoutes, groups, csrf.New, fiber.Handler.isCsrf]
    · intro g hg _
      simp only [Server.initRoutes, groups, List.nil_append, List.cons_append,
        List.filterMap_cons, List.filterMap_nil, List.mem_cons, List.mem_singleton,
        List.not_mem_nil, or_false] at hg
      rcases hg with rfl | rfl | rfl | rfl
      · exact ⟨FeatureModule.auth, by simp [Server.initRoutes, routesCalls]⟩
      · exact ⟨FeatureModule.tweet, by simp [Server.initRoutes, routesCalls]⟩
      · exact ⟨FeatureModule.user, by simp [Server.initRoutes, routesCalls]⟩
      · exact ⟨FeatureModule.relationship, by simp [Server.initRoutes, routesCalls]⟩

/-- C6: the CSRF middleware built by `initRoutes` (the one handler of every
CSRF-carrying group) has `CookieSecure` set if and only if `APP_ENV` is set to
`production`; when `APP_ENV` is unset the looked-up value is the default
`development` and the flag is false; for every other value it is false. -/
theorem C6_cookie_secure_iff_production (s : Server) (env : Env) (w : World) :
    ∃ c : csrf.Config,
      (∃ g ∈ groups (s.initRoutes env w), csrf.New c ∈ g.handlers) ∧
      (∀ g ∈ groups (s.initRoutes env []), ∀ h ∈ g.handlers, h = csrf.New c) ∧
      (c.CookieSecure = true ↔ env.getenv "APP_ENV" = some "production") ∧
      (env.getenv "APP_ENV" = none →
        config.GetString env "APP_ENV" "development" = "development" ∧
          c.CookieSecure = false) ∧
      (∀ v, env.getenv "APP_ENV" = some v → v ≠ "production" → c.CookieSecure = false) := by
  refine ⟨{ CookieSecure := config.GetString env "APP_ENV" "development" == "production"
            Expiration := 24 * time.Hour
            KeyGenerator := csrf.KeyGenerator.gonanoidMust }, ?_, ?_, ?_, ?_, ?_⟩
  · refine ⟨{ path := "/tweets", handlers := _ }, ?_, List.mem_singleton.mpr rfl⟩
    rw [initRoutes_append, groups_append]
    simp [Server.initRoutes, groups]
  · intro g hg
    simp only [Server.initRoutes, groups, List.nil_append, List.cons_append,
      List.filterMap_cons, List.filterMap_nil, List.mem_cons, List.mem_singleton,
      List.not_mem_nil, or_false] at hg
    rcases hg with rfl | rfl | rfl | rfl <;> simp
  · cases h : env.getenv "APP_ENV" <;> simp [config.GetString, h]
  · intro h
    simp [config.GetString, h]
  · intro v h hv
    simp [config.GetString, h, hv]

theorem errorRecords_initMiddlewares (s : Server) : errorRecords (s.initMiddlewares []) = [] := by
  simp [Server.initMiddlewares, errorRecords]

theorem errorRecords_initRoutes (s : Server) (env : Env) :
    errorRecords (s.initRoutes env []) = [] := by
  simp [Server.initRoutes, errorRecords]

theorem infoLines_initMiddlewares (s : Server) : infoLines (s.initMiddlewares []) = [] := by
  simp [Server.initMiddlewares, infoLines]

theorem infoLines_initRoutes (s : Server) (env : Env) :
    infoLines (s.initRoutes env []) = [] := by
  simp [Server.initRoutes, infoLines]

/-- C7: `Listen` and `ListenTLS` are total functions that return no error
value.  The error records they add to the log are exactly the error the web
server's listen call returned, if it returned one: one record, holding that
error whatever it is, logged on the server's logger as the last call made; and
no record when the listen call returned `nil`. -/
theorem C7_listen_error_logged_once (s : Server) (env : Env) (certFile keyFile : String)
    (w : World) :
    errorRecords (s.Listen env w) =
        errorRecords w ++ (env.listen (listenAddr s.config)).toList ∧
    errorRecords (s.ListenTLS env certFile keyFile w) =
        errorRecords w ++ (env.listenTLS (listenAddr s.config) certFile keyFile).toList ∧
    (∀ err, env.listen (listenAddr s.config) = some err →
        (errorRecords (s.Listen env w)).length = (errorRecords w).length + 1 ∧
        (s.Listen env w).getLast? = some (Event.error s.log err)) ∧
    (∀ err, env.listenTLS (listenAddr s.config) certFile keyFile = some err →
        (errorRecords (s.ListenTLS env certFile keyFile w)).length =
          (errorRecords w).length + 1 ∧
        (s.ListenTLS env certFile keyFile w).getLast? = some (Event.error s.log err)) ∧
    (env.listen (listenAddr s.config) = none →
        errorRecords (s.Listen env w) = errorRecords w) ∧
    (env.listenTLS (listenAddr s.config) certFile keyFile = none →
        errorRecords (s.ListenTLS env certFile keyFile w) = errorRecords w) := by
  have hL : errorRecords (s.Listen env w) =
      errorRecords w ++ (env.listen (listenAddr s.config)).toList := by
    rw [Listen_trace]
    simp only [errorRecords_append, errorRecords_initMiddlewares, errorRecords_initRoutes,
      List.append_nil]
    cases env.isChild <;> cases env.listen (listenAddr s.config) <;> simp [errorRecords]
  have hT : errorRecords (s.ListenTLS env certFile keyFile w) =
      errorRecords w ++ (env.listenTLS (listenAddr s.config) certFile keyFile).toList := by
    rw [ListenTLS_trace]
    simp only [errorRecords_append, errorRecords_initMiddlewares, errorRecords_initRoutes,
      List.append_nil]
    cases env.isChild <;> cases env.listenTLS (listenAddr s.config) certFile keyFile <;>
      simp [errorRecords]
  refine ⟨hL, hT, ?_, ?_, ?_, ?_⟩
  · intro err h
    refine ⟨by rw [hL, h]; simp, ?_⟩
    rw [Listen_trace, h]
    cases env.isChild <;> simp [List.getLast?_append, List.getLast?_cons_cons]
  · intro err h
    refine ⟨by rw [hT, h]; simp, ?_⟩
    rw [ListenTLS_trace, h]
    cases env.isChild <;> simp [List.getLast?_append, List.getLast?_cons_cons]
  · intro h
    rw [hL, h]
    simp
  · intro h
    rw [hT, h]
    simp

/-- C8: a call of `Listen` or of `ListenTLS` adds exactly one info line when
`fiber.IsChild()` is false and none when it is true; the line is
`Starting up <AppName> <Version>:<BuildID>` of the server's configuration,
logged on the server's logger; and it is logged immediately before the listen
call, the one listen call of the run. -/
theorem C8_startup_line (s : Server) (env : Env) (certFile keyFile : String) (w : World) :
    infoLines (s.Listen env w) =
        infoLines w ++ (if env.isChild then [] else [startupMessage s.config]) ∧
    infoLines (s.ListenTLS env certFile keyFile w) =
        infoLines w ++ (if env.isChild then [] else [startupMessage s.config]) ∧
    startupMessage s.config =
        "Starting up " ++ s.config.AppName ++ " " ++ s.config.Version ++ ":" ++
          s.config.BuildID ∧
    (env.isChild = false → ∃ pre post,
        s.Listen env w = w ++ pre ++ Event.infof s.log (startupMessage s.config) ::
          Event.listen s.webserver (listenAddr s.config) :: post ∧
        (∀ e ∈ pre ++ post, e.isListenCall = false) ∧ infoLines (pre ++ post) = []) ∧
    (env.isChild = false → ∃ pre post,
        s.ListenTLS env certFile keyFile w =
          w ++ pre ++ Event.infof s.log (startupMessage s.config) ::
            Event.listenTLS s.webserver (listenAddr s.config) certFile keyFile :: post ∧
        (∀ e ∈ pre ++ post, e.isListenCall = false) ∧ infoLines (pre ++ post) = []) := by
  have hsetup : ∀ e ∈ s.initMiddlewares [] ++ s.initRoutes env [], e.isListenCall = false := by
    simp [Server.initMiddlewares, Server.initRoutes, Event.isListenCall]
  refine ⟨?_, ?_, rfl, ?_, ?_⟩
  · rw [Listen_trace]
    simp only [infoLines_append, infoLines_initMiddlewares, infoLines_initRoutes,
      List.append_nil]
    cases env.isChild <;> cases env.listen (listenAddr s.config) <;> simp [infoLines]
  · rw [ListenTLS_trace]
    simp only [infoLines_append, infoLines_initMiddlewares, infoLines_initRoutes,
      List.append_nil]
    cases env.isChild <;> cases env.listenTLS (listenAddr s.config) certFile keyFile <;>
      simp [infoLines]
  · intro hc
    refine ⟨s.initMiddlewares [] ++ s.initRoutes env [],
      (env.listen (listenAddr s.config)).toList.map (Event.error s.log), ?_, ?_, ?_⟩
    · rw [Listen_trace, hc]
      simp
    · intro e he
      rcases List.mem_append.mp he with h | h
      · exact hsetup e h
      · obtain ⟨a, -, rfl⟩ := List.mem_map.mp h
        rfl
    · simp only [infoLines_append, infoLines_initMiddlewares, infoLines_initRoutes,
        List.nil_append]
      cases env.listen (listenAddr s.config) <;> simp [infoLines]
  · intro hc
    refine ⟨s.initMiddlewares [] ++ s.initRoutes env [],
      (env.listenTLS (listenAddr s.config) certFile keyFile).toList.map (Event.error s.log),
      ?_, ?_, ?_⟩
    · rw [ListenTLS_trace, hc]
      simp
    · intro e he
      rcases List.mem_append.mp he with h | h
      · exact hsetup e h
      · obtain ⟨a, -, rfl⟩ := List.mem_map.mp h
        rfl
    · simp only [infoLines_append, infoLines_initMiddlewares, infoLines_initRoutes,
        List.nil_append]
      cases env.listenTLS (listenAddr s.config) certFile keyFile <;> simp [infoLines]

/-- C9: for every configuration, the one listen call `Listen` makes is
`Listen(Host ++ ":" ++ Port)` on the server's web server, and the one listen
call `ListenTLS` makes is `ListenTLS(Host ++ ":" ++ Port, certFile, keyFile)`:
the same address string, and the two file arguments unchanged and in that
order. -/
theorem C9_listen_address (s : Server) (env : Env) (certFile keyFile : String) (w : World) :
    (s.Listen env w).filter Event.isListenCall =
        w.filter Event.isListenCall ++
          [Event.listen s.webserver (s.config.Host ++ ":" ++ s.config.Port)] ∧
    (s.ListenTLS env certFile keyFile w).filter Event.isListenCall =
        w.filter Event.isListenCall ++
          [Event.listenTLS s.webserver (s.config.Host ++ ":" ++ s.config.Port)
            certFile keyFile] := by
  have hsetup : (s.initMiddlewares [] ++ s.initRoutes env []).filter Event.isListenCall = [] := by
    simp [Server.initMiddlewares, Server.initRoutes, Event.isListenCall]
  constructor
  · rw [Listen_trace, List.append_assoc w, List.filter_append, List.filter_append, hsetup]
    cases env.isChild <;> cases env.listen (listenAddr s.config) <;>
      simp [Event.isListenCall, List.filter, listenAddr]
  · rw [ListenTLS_trace, List.append_assoc w, List.filter_append, List.filter_append, hsetup]
    cases env.isChild <;> cases env.listenTLS (listenAddr s.config) certFile keyFile <;>
      simp [Event.isListenCall, List.filter, listenAddr]

/-- C10: `New` stores the handles it is given unchanged.  One run of
`initRoutes` on the server `New` built calls the four `Routes` functions once
each, in the order auth, tweet, user, relationship, each with a group created
in this run whose prefix is the module's own and with the storage and cache
handles given to `New`; and every call `initRoutes` makes is a `Group` call or
such a `Routes` call, so the handles are handed on and nothing else is done
with them. -/
theorem C10_routes_get_handles (init : Config → Config) (ws : webserver.WebServer)
    (db : database.Database) (c : cache.Cache) (log : zap.SugaredLogger) (cfg : Config)
    (env : Env) (w : World) :
    (New init ws db c log cfg).db = db ∧ (New init ws db c log cfg).cache = c ∧
    (∃ ga gt gu gr : fiber.Router,
      groups ((New init ws db c log cfg).initRoutes env []) = [ga, gt, gu, gr] ∧
      ga.path = "/auth" ∧ gt.path = "/tweets" ∧ gu.path = "/users" ∧
      gr.path = "/relationships" ∧
      routesCalls ((New init ws db c log cfg).initRoutes env w) =
        routesCalls w ++
          [(FeatureModule.auth, ga, db, c), (FeatureModule.tweet, gt, db, c),
           (FeatureModule.user, gu, db, c), (FeatureModule.relationship, gr, db, c)]) ∧
    (∀ e ∈ (New init ws db c log cfg).initRoutes env [],
      (∃ g, e = Event.group ws g) ∨ (∃ m g, e = Event.routes m g db c)) := by
  refine ⟨rfl, rfl, ⟨_, _, _, _, rfl, rfl, rfl, rfl, rfl, ?_⟩, ?_⟩
  · rw [initRoutes_append, routesCalls_append]
    simp [Server.initRoutes, routesCalls, New]
  · simp [Server.initRoutes, New]

/-! ### The rate limiter -/

namespace limiter

theorem admission_other (cfg : Config) (t : RateTable) (key : String) (now : Nat) (k : String)
    (h : k ≠ key) : (admission cfg t key now).2 k = t k := by
  simp [admission, RateTable.set, h]

theorem admission_self (cfg : Config) (t : RateTable) (key : String) (now : Nat) :
    (admission cfg t key now).2 key = some (nextEntry cfg (t key) now).2 := by
  simp [admission, RateTable.set]

theorem admission_fst (cfg : Config) (t : RateTable) (key : String) (now : Nat) :
    (admission cfg t key now).1 = (nextEntry cfg (t key) now).1 := rfl

/-- The decisions for one key depend only on that key's entry and on that
key's requests. -/
theorem serve_filter_key (cfg : Config) (k : String) :
    ∀ (reqs : List Request) (t t' : RateTable), t k = t' k →
      (serve cfg t reqs).filter (fun p => decide (p.1.key = k)) =
        serve cfg t' (reqs.filter (fun r => decide (r.key = k)))
  | [], _, _, _ => by simp [serve]
  | r :: rs, t, t', h => by
    by_cases hk : r.key = k
    · subst hk
      have h1 : (admission cfg t r.key r.time).2 r.key =
          (admission cfg t' r.key r.time).2 r.key := by
        rw [admission_self, admission_self, h]
      simp only [serve, List.filter_cons, decide_True, if_true]
      rw [admission_fst, admission_fst, h]
      congr 1
      exact serve_filter_key cfg r.key rs _ _ h1
    · have h1 : (admission cfg t r.key r.time).2 k = t' k := by
        rw [admission_other cfg t r.key r.time k (Ne.symm hk), h]
      simp only [serve, List.filter_cons, hk, decide_False, Bool.false_eq_true, if_false]
      exact serve_filter_key cfg k rs _ _ h1

/-- Inside an open window every request of the key raises the count by one
and is admitted while the count does not exceed the maximum. -/
theorem serve_in_window (cfg : Config) (K : String) (s : Nat) :
    ∀ (reqs : List Request) (t : RateTable) (c : Nat),
      t K = some { count := c, windowStart := s } →
      (∀ r ∈ reqs, r.key = K ∧ r.time < s + cfg.Expiration) →
      (serve cfg t reqs).map (fun p => p.2) =
        (List.range reqs.length).map (fun i => decide (c + 1 + i ≤ cfg.Max))
  | [], _, _, _, _ => by simp [serve]
  | r :: rs, t, c, ht, h => by
    obtain ⟨hk, hw⟩ := h r (List.mem_cons_self _ _)
    have hnext : nextEntry cfg (t K) r.time =
        (decide (c + 1 ≤ cfg.Max), { count := c + 1, windowStart := s }) := by
      simp [nextEntry, ht, hw]
    have ht1 : (admission cfg t r.key r.time).2 K =
        some { count := c + 1, windowStart := s } := by
      rw [hk, admission_self, hnext]
    have ih := serve_in_window cfg K s rs _ (c + 1) ht1
      (fun x hx => h x (List.mem_cons_of_mem _ hx))
    rw [hk] at ih
    simp only [serve, List.map_cons, List.length_cons, List.range_succ_eq_map, ih,
      admission_fst, hk, hnext, List.map_map]
    congr 1
    apply List.map_congr_left
    intro i _
    simp only [Function.comp, Nat.succ_eq_add_one]
    congr 1
    apply propext
    constructor <;> intro h' <;> omega

theorem counted_iff (key : String) (a b : Nat) (r : Request) (ok : Bool) :
    counted key a b (r, ok) = true ↔ ok = true ∧ r.key = key ∧ a ≤ r.time ∧ r.time < b := by
  simp [counted, and_assoc]

theorem serve_append (cfg : Config) (pre post : List Request) :
    ∀ t : RateTable,
      serve cfg t (pre ++ post) = serve cfg t pre ++ serve cfg (tableAfter cfg t pre) post := by
  induction pre with
  | nil => intro t; rfl
  | cons r rs ih =>
    intro t
    rw [List.cons_append]
    simp only [serve, tableAfter]
    rw [ih]
    rfl

theorem serve_map_fst (cfg : Config) :
    ∀ (reqs : List Request) (t : RateTable), (serve cfg t reqs).map (fun p => p.1) = reqs
  | [], _ => rfl
  | r :: rs, t => by simp only [serve, List.map_cons, serve_map_fst cfg rs]

/-- One request: what it adds to the count for `[a, a + Expiration)` is paid
for by the drop of the potential. -/
theorem potential_step (cfg : Config) (a now : Nat) (st : Option RateWindowEntry)
    (hM : 1 ≤ cfg.Max) (hinv : ∀ e, st = some e → e.windowStart ≤ now) :
    (if (nextEntry cfg st now).1 = true ∧ a ≤ now ∧ now < a + cfg.Expiration then 1 else 0) +
      potential cfg a (some (nextEntry cfg st now).2) ≤ potential cfg a st := by
  cases st with
  | none =>
    simp only [nextEntry, potential]
    split_ifs <;> omega
  | some e =>
    have := hinv e rfl
    simp only [nextEntry, potential]
    by_cases hw : now < e.windowStart + cfg.Expiration
    · by_cases hc : e.count + 1 ≤ cfg.Max
      · simp only [hw, hc, if_true, decide_True, true_and]
        split_ifs <;> omega
      · simp only [hw, hc, if_true, decide_False, Bool.false_eq_true, false_and, if_false]
        split_ifs <;> omega
    · simp only [hw, if_false, true_and]
      split_ifs <;> omega

/-- The window of the entry written for a request starts at the request's
arrival time or where the window of the entry read started. -/
theorem nextEntry_windowStart (cfg : Config) (st : Option RateWindowEntry) (now : Nat) :
    (nextEntry cfg st now).2.windowStart = now ∨
      ∃ e, st = some e ∧ (nextEntry cfg st now).2.windowStart = e.windowStart := by
  cases st with
  | none => exact Or.inl rfl
  | some e =>
    simp only [nextEntry]
    split_ifs
    · exact Or.inr ⟨e, rfl, rfl⟩
    · exact Or.inl rfl

/-- From a table whose entry for `K` does not start after the requests to
come, served in order of time, the admitted requests of `K` with arrival time
in `[a, a + Expiration)` are at most the potential of the entry. -/
theorem admittedIn_le_potential (cfg : Config) (K : String) (a : Nat) (hM : 1 ≤ cfg.Max) :
    ∀ (reqs : List Request) (t : RateTable), inTimeOrder reqs →
      (∀ e, t K = some e → ∀ r ∈ reqs, r.key = K → e.windowStart ≤ r.time) →
      admittedIn K a (a + cfg.Expiration) (serve cfg t reqs) ≤ potential cfg a (t K)
  | [], _, _, _ => by simp [serve, admittedIn]
  | r :: rs, t, hord, hinv => by
    have hord' : inTimeOrder rs := (List.pairwise_cons.mp hord).2
    have hle : ∀ x ∈ rs, r.time ≤ x.time := (List.pairwise_cons.mp hord).1
    simp only [serve, admittedIn, List.countP_cons]
    by_cases hk : r.key = K
    · have hstep := potential_step cfg a r.time (t K) hM
        (fun e he => hinv e he r (List.mem_cons_self _ _) hk)
      have ht' : (admission cfg t r.key r.time).2 K = some (nextEntry cfg (t K) r.time).2 := by
        rw [hk, admission_self]
      have ih := admittedIn_le_potential cfg K a hM rs (admission cfg t r.key r.time).2 hord'
        (by
          intro e he x hx hxk
          rw [ht'] at he
          have he' : (nextEntry cfg (t K) r.time).2 = e := Option.some.inj he
          rcases nextEntry_windowStart cfg (t K) r.time with h | ⟨e0, h0, h⟩
          · rw [← he', h]
            exact hle x hx
          · rw [← he', h]
            exact hinv e0 h0 x (List.mem_cons_of_mem _ hx) hxk)
      rw [ht'] at ih
      simp only [admittedIn] at ih
      have hcnt : (if counted K a (a + cfg.Expiration) (r, (admission cfg t r.key r.time).1) = true
            then 1 else 0) ≤
          (if (nextEntry cfg (t K) r.time).1 = true ∧ a ≤ r.time ∧ r.time < a + cfg.Expiration
            then 1 else 0) := by
        simp only [counted_iff, admission_fst, hk]
        split_ifs with h1 h2
        · exact Nat.le_refl _
        · exact absurd ⟨h1.1, h1.2.2⟩ h2
        · exact Nat.zero_le _
        · exact Nat.le_refl _
      omega
    · have ht' : (admission cfg t r.key r.time).2 K = t K :=
        admission_other cfg t r.key r.time K (Ne.symm hk)
      have ih := admittedIn_le_potential cfg K a hM rs (admission cfg t r.key r.time).2 hord'
        (by
          intro e he x hx hxk
          rw [ht'] at he
          exact hinv e he x (List.mem_cons_of_mem _ hx) hxk)
      rw [ht'] at ih
      simp only [admittedIn] at ih
      have hcnt : counted K a (a + cfg.Expiration) (r, (admission cfg t r.key r.time).1) =
          false := by
        rw [Bool.eq_false_iff, Ne, counted_iff]
        tauto
      simp only [hcnt, Bool.false_eq_true, if_false]
      omega

theorem admittedIn_snoc (key : String) (a b : Nat) (hist : List (Request × Bool))
    (x : Request × Bool) :
    admittedIn key a b (hist ++ [x]) =
      admittedIn key a b hist + (if counted key a b x = true then 1 else 0) := by
  simp [admittedIn, List.countP_append, List.countP_cons]

theorem admittedIn_eq_zero (key : String) (a b : Nat) (hist : List (Request × Bool))
    (h : ∀ p ∈ hist, p.1.key = key → p.1.time < a) : admittedIn key a b hist = 0 := by
  unfold admittedIn
  rw [List.countP_eq_zero]
  intro p hp hc
  obtain ⟨r, ok⟩ := p
  rw [counted_iff] at hc
  have := h (r, ok) hp hc.2.1
  simp only at this
  omega

/-- Serving one more request keeps `histOk`. -/
theorem histOk_step (cfg : Config) (K : String) (hM : 1 ≤ cfg.Max)
    (hW : (1 : Nat) ≤ cfg.Expiration)
    (hist : List (Request × Bool)) (t : RateTable) (r : Request)
    (h : histOk cfg K hist (t K)) :
    histOk cfg K (hist ++ [(r, (admission cfg t r.key r.time).1)])
      ((admission cfg t r.key r.time).2 K) := by
  by_cases hk : r.key = K
  · rw [hk, admission_self, admission_fst]
    cases ht : t K with
    | none =>
      rw [ht] at h
      simp only [histOk] at h
      simp only [nextEntry, histOk]
      refine ⟨?_, ⟨_, List.mem_append_right _ (List.mem_singleton.mpr rfl), rfl⟩, ?_⟩
      · intro p hp hpk
        rcases List.mem_append.mp hp with hp | hp
        · exact absurd hpk (h p hp)
        · rw [List.mem_singleton.mp hp]
          simp only
          omega
      · rw [admittedIn_snoc, admittedIn_eq_zero K _ _ hist
          (fun p hp hpk => absurd hpk (h p hp))]
        split_ifs <;> omega
    | some e =>
      rw [ht] at h
      obtain ⟨h1, h2, h3⟩ := h
      by_cases hw : r.time < e.windowStart + cfg.Expiration
      · simp only [nextEntry, hw, if_true, histOk]
        refine ⟨?_, ?_, ?_⟩
        · intro p hp hpk
          rcases List.mem_append.mp hp with hp | hp
          · exact h1 p hp hpk
          · rw [List.mem_singleton.mp hp]
            exact hw
        · obtain ⟨p, hp, hpt⟩ := h2
          exact ⟨p, List.mem_append_left _ hp, hpt⟩
        · rw [admittedIn_snoc]
          by_cases hc : e.count + 1 ≤ cfg.Max
          · split_ifs <;> omega
          · have : counted K e.windowStart (e.windowStart + cfg.Expiration)
                (r, decide (e.count + 1 ≤ cfg.Max)) = false := by
              rw [Bool.eq_false_iff, Ne, counted_iff]
              simp [hc]
            simp only [this, Bool.false_eq_true, if_false]
            omega
      · simp only [nextEntry, hw, if_false, histOk]
        refine ⟨?_, ⟨_, List.mem_append_right _ (List.mem_singleton.mpr rfl), rfl⟩, ?_⟩
        · intro p hp hpk
          rcases List.mem_append.mp hp with hp | hp
          · have := h1 p hp hpk
            omega
          · rw [List.mem_singleton.mp hp]
            simp only
            omega
        · rw [admittedIn_snoc, admittedIn_eq_zero K _ _ hist
            (fun p hp hpk => by have := h1 p hp hpk; omega)]
          split_ifs <;> omega
  · rw [admission_other cfg t r.key r.time K (Ne.symm hk)]
    have hnc : ∀ a b, counted K a b (r, (admission cfg t r.key r.time).1) = false := by
      intro a b
      rw [Bool.eq_false_iff, Ne, counted_iff]
      tauto
    cases ht : t K with
    | none =>
      rw [ht] at h
      simp only [histOk] at h ⊢
      intro p hp
      rcases List.mem_append.mp hp with hp | hp
      · exact h p hp
      · rw [List.mem_singleton.mp hp]
        exact hk
    | some e =>
      rw [ht] at h
      obtain ⟨h1, h2, h3⟩ := h
      refine ⟨?_, ?_, ?_⟩
      · intro p hp hpk
        rcases List.mem_append.mp hp with hp | hp
        · exact h1 p hp hpk
        · rw [List.mem_singleton.mp hp] at hpk
          exact absurd hpk hk
      · obtain ⟨p, hp, hpt⟩ := h2
        exact ⟨p, List.mem_append_left _ hp, hpt⟩
      · rw [admittedIn_snoc, hnc]
        simpa using h3

/-- Serving a sequence of requests keeps `histOk`. -/
theorem histOk_serve (cfg : Config) (K : String) (hM : 1 ≤ cfg.Max)
    (hW : (1 : Nat) ≤ cfg.Expiration) (pre : List Request) :
    ∀ (t : RateTable) (hist : List (Request × Bool)), histOk cfg K hist (t K) →
      histOk cfg K (hist ++ serve cfg t pre) (tableAfter cfg t pre K) := by
  induction pre with
  | nil =>
    intro t hist h
    simpa [serve, tableAfter] using h
  | cons r rs ih =>
    intro t hist h
    have h' := ih _ _ (histOk_step cfg K hM hW hist t r h)
    simpa [serve, tableAfter, List.append_assoc] using h'

end limiter

/-- The one rate limiter `initMiddlewares` registers has `Max` 60 and
`Expiration` one minute. -/
theorem limiterConfigs_initMiddlewares (s : Server) :
    limiterConfigs (s.initMiddlewares []) = [{ Max := 60, Expiration := 1 * time.Minute }] := by
  simp [limiterConfigs, Server.initMiddlewares, limiter.New, cors.New, logger.New]

/-- C4: the rate limiter `initMiddlewares` registers has `Max` 60 and
`Expiration` one minute, which is 60 seconds.  Under the fixed-window policy
with these parameters: if key `K` has no open window when its first request
arrives at `t0` (no entry, or an expired one), and its next 60 requests arrive
before `t0` plus one minute, then the first 60 requests of `K` are admitted and
the 61st is rejected, whatever requests of other keys are served in between;
and the decisions for the requests of every other key are the ones they would
get with the requests of `K` left out. -/
theorem C4_sixty_admitted_then_rejected (s : Server) (cfg : limiter.Config)
    (hcfg : cfg ∈ limiterConfigs (s.initMiddlewares []))
    (K : String) (t : limiter.RateTable) (reqs : List limiter.Request)
    (t0 : Nat) (later : List Nat)
    (hfresh : ∀ e, t K = some e → e.windowStart + cfg.Expiration ≤ t0)
    (htimes : (reqs.filter (fun r => decide (r.key = K))).map (fun r => r.time) = t0 :: later)
    (hlen : later.length = 60)
    (hwin : ∀ x ∈ later, x < t0 + 60 * time.Second) :
    cfg.Max = 60 ∧ cfg.Expiration = 1 * time.Minute ∧ cfg.Expiration = 60 * time.Second ∧
    ((limiter.serve cfg t reqs).filter (fun p => decide (p.1.key = K))).map (fun p => p.2) =
        List.replicate 60 true ++ [false] ∧
    (∀ k, k ≠ K →
      (limiter.serve cfg t reqs).filter (fun p => decide (p.1.key = k)) =
        (limiter.serve cfg t (reqs.filter (fun r => decide (r.key ≠ K)))).filter
          (fun p => decide (p.1.key = k))) := by
  rw [limiterConfigs_initMiddlewares, List.mem_singleton] at hcfg
  have hexp : cfg.Expiration = 60 * time.Second := by rw [hcfg]; decide
  refine ⟨by rw [hcfg], by rw [hcfg], hexp, ?_, ?_⟩
  · rw [limiter.serve_filter_key cfg K reqs t t rfl]
    have hkeys : ∀ r ∈ reqs.filter (fun r => decide (r.key = K)), r.key = K := by
      intro r hr
      simpa using (List.mem_filter.mp hr).2
    generalize reqs.filter (fun r => decide (r.key = K)) = reqsK at htimes hkeys
    match reqsK, htimes, hkeys with
    | r0 :: restK, htimes, hkeys =>
      simp only [List.map_cons, List.cons.injEq] at htimes
      obtain ⟨h0, hrest⟩ := htimes
      subst h0
      have hk0 : r0.key = K := hkeys r0 (List.mem_cons_self _ _)
      have hnext : limiter.nextEntry cfg (t K) r0.time =
          (true, { count := 1, windowStart := r0.time }) := by
        cases ht : t K with
        | none => simp [limiter.nextEntry]
        | some e =>
          have := hfresh e ht
          have hn : ¬ r0.time < e.windowStart + cfg.Expiration := by omega
          simp [limiter.nextEntry, hn]
      have ht1 : (limiter.admission cfg t r0.key r0.time).2 K =
          some { count := 1, windowStart := r0.time } := by
        rw [hk0, limiter.admission_self, hnext]
      have hlen' : restK.length = 60 := by
        rw [← hlen, ← hrest, List.length_map]
      have hin : ∀ r ∈ restK, r.key = K ∧ r.time < r0.time + cfg.Expiration := by
        intro r hr
        refine ⟨hkeys r (List.mem_cons_of_mem _ hr), ?_⟩
        rw [hexp]
        exact hwin r.time (by rw [← hrest]; exact List.mem_map_of_mem _ hr)
      have hw := limiter.serve_in_window cfg K r0.time restK _ 1 ht1 hin
      rw [hk0] at hw
      simp only [limiter.serve, List.map_cons, hw, limiter.admission_fst, hk0, hnext, hlen']
      rw [hcfg]
      decide
  · intro k hk
    rw [limiter.serve_filter_key cfg k reqs t t rfl,
      limiter.serve_filter_key cfg k (reqs.filter (fun r => decide (r.key ≠ K))) t t rfl,
      List.filter_filter]
    congr 1
    apply List.filter_congr
    intro r _
    by_cases h : r.key = k
    · simp [h, hk]
    · simp [h]

/-- C4 at a concrete input: 61 requests of `K` within one minute, on an empty
table, with a request of another key in between. -/
theorem C4_sixty_admitted_then_rejected_witness :
    ((limiter.serve { Max := 60, Expiration := 1 * time.Minute } limiter.RateTable.empty
        sixtyOneRequests).filter (fun p => decide (p.1.key = "K"))).map (fun p => p.2) =
      List.replicate 60 true ++ [false] :=
  (C4_sixty_admitted_then_rejected exampleServer { Max := 60, Expiration := 1 * time.Minute }
    (by decide) "K" limiter.RateTable.empty sixtyOneRequests 0
    (List.replicate 60 (30 * time.Second))
    (by simp [limiter.RateTable.empty]) (by decide) (by decide) (by decide)).2.2.2.1

/-- C5, the claim as stated fails: with the limiter as configured, key `K`
sends one request at time 0, 59 at second 59 and two at second 60, in order of
time on an empty table; all are admitted, and 61 of them arrive within the 60
seconds that start at second 59. -/
theorem C5_rolling_interval_counterexample :
    ∃ cfg ∈ limiterConfigs (exampleServer.initMiddlewares []),
      limiter.inTimeOrder burstAcrossBoundary ∧
      60 < limiter.admittedIn "K" (59 * time.Second) (59 * time.Second + 60 * time.Second)
        (limiter.serve cfg limiter.RateTable.empty burstAcrossBoundary) :=
  ⟨{ Max := 60, Expiration := 1 * time.Minute }, by decide, by decide, by decide⟩

/-- C5 as amended: with the limiter as configured (Max 60, Expiration one
minute, fixed window), for every key and every sequence of requests arriving in
order of time and served from the empty table, at most 60 admitted requests of
the key arrive within the 60 seconds that start where a window of the key
starts (the window start recorded in the table after any part of the sequence),
and at most 120 within any rolling interval of 60 seconds. -/
theorem C5_window_bounds (s : Server) (cfg : limiter.Config)
    (hcfg : cfg ∈ limiterConfigs (s.initMiddlewares []))
    (K : String) (reqs : List limiter.Request) (hord : limiter.inTimeOrder reqs) :
    (∀ pre post e, reqs = pre ++ post →
      limiter.tableAfter cfg limiter.RateTable.empty pre K = some e →
      limiter.admittedIn K e.windowStart (e.windowStart + 60 * time.Second)
        (limiter.serve cfg limiter.RateTable.empty reqs) ≤ 60) ∧
    (∀ a, limiter.admittedIn K a (a + 60 * time.Second)
        (limiter.serve cfg limiter.RateTable.empty reqs) ≤ 120) := by
  rw [limiterConfigs_initMiddlewares, List.mem_singleton] at hcfg
  have hexp : (cfg.Expiration : Nat) = 60 * time.Second := by rw [hcfg]; decide
  have hmax : cfg.Max = 60 := by rw [hcfg]
  have hM : 1 ≤ cfg.Max := by omega
  have hW : (1 : Nat) ≤ cfg.Expiration := by rw [hexp]; decide
  rw [← hexp]
  constructor
  · intro pre post e hsplit he
    subst hsplit
    have hhist := limiter.histOk_serve cfg K hM hW pre limiter.RateTable.empty []
      (by simp [limiter.histOk, limiter.RateTable.empty])
    rw [he, List.nil_append] at hhist
    obtain ⟨-, ⟨p, hp, hpt⟩, h3⟩ := hhist
    have hpre : p.1 ∈ pre := by
      have := List.mem_map_of_mem (fun p => p.1) hp
      rwa [limiter.serve_map_fst] at this
    obtain ⟨-, hpost, hcross⟩ := List.pairwise_append.mp hord
    have hbound := limiter.admittedIn_le_potential cfg K e.windowStart hM post
      (limiter.tableAfter cfg limiter.RateTable.empty pre) hpost
      (by
        intro e' he' r hr _
        rw [he] at he'
        rw [← Option.some.inj he', ← hpt]
        exact hcross p.1 hpre r hr)
    rw [he] at hbound
    have hpot : limiter.potential cfg e.windowStart (some e) = cfg.Max - e.count := by
      have h1 : ¬ e.windowStart + cfg.Expiration ≤ e.windowStart := by omega
      simp [limiter.potential, h1]
    rw [hpot] at hbound
    rw [limiter.serve_append]
    simp only [limiter.admittedIn, List.countP_append] at h3 hbound ⊢
    omega
  · intro a
    have hbound := limiter.admittedIn_le_potential cfg K a hM reqs limiter.RateTable.empty hord
      (by simp [limiter.RateTable.empty])
    simp only [limiter.RateTable.empty, limiter.potential] at hbound
    omega

/-- C5 as amended, at the burst across the window boundary: the 61 admitted
requests inside the 60 seconds from second 59 are within the bound of 120. -/
theorem C5_window_bounds_witness :
    limiter.admittedIn "K" (59 * time.Second) (59 * time.Second + 60 * time.Second)
      (limiter.serve { Max := 60, Expiration := 1 * time.Minute } limiter.RateTable.empty
        burstAcrossBoundary) ≤ 120 :=
  (C5_window_bounds exampleServer { Max := 60, Expiration := 1 * time.Minute } (by decide) "K"
    burstAcrossBoundary (by decide)).2 (59 * time.Second)

end TwitterClone
